import Mathlib

/-!
Verification development for the News_API repository.

This file gives a shallow embedding, in Lean 4, of the parts of the
News_API source that the specification's claims are about:

* `normalizeCategory` (src/services/news.service.js and the
  character-identical copy in the news processor),
* the `news` Mongoose schema validation (models/news.model.js),
* the content extractor (`extractImageUrl`, `fetchArticleImage`,
  `extractDescription`, `fetchArticleSummary` of the news processor),
* `processFeed` / `processAllFeeds` (news processor),
* `getNews` of the news service,
* the `getNews` controller with its in-memory fallback cache
  (src/controllers/news.controller.js).

JavaScript strings are modelled by Lean `String`; a JS string value
that can also be `undefined`/`null` is modelled by the empty string,
matching the code's truthiness tests (`""`, `undefined` and `null` are
all falsy).  JS `toLowerCase`/`toUpperCase` are modelled by the
ASCII-only `Char.toLower`/`Char.toUpper` (all category data in the
repository is ASCII).  Network and HTML-parsing effects (axios,
cheerio) are external capabilities: their results are passed to the
embedded functions as explicit arguments.
-/

namespace NewsApi

/-- JS `category.toLowerCase()` (ASCII model). -/
def toLowerStr (s : String) : String := ⟨s.data.map Char.toLower⟩

/-- JS `category.charAt(0).toUpperCase() + category.slice(1)` (ASCII model). -/
def capitalizeStr (s : String) : String :=
  match s.data with
  | [] => ""
  | c :: rest => ⟨Char.toUpper c :: rest⟩

/-- The `categoryMap` object literal of `normalizeCategory`
(news.service.js lines 22-43; the news processor in feed.service.js
lines 404-425 has an identical copy). -/
def categoryMap : List (String × String) :=
  [("india", "India"),
   ("world", "World"),
   ("tech", "Tech"),
   ("technology", "Tech"),
   ("gadgets", "Tech"),
   ("politics", "Politics"),
   ("business", "Business"),
   ("economy", "Business"),
   ("finance", "Business"),
   ("sports", "Sports"),
   ("sport", "Sports"),
   ("health", "Health"),
   ("healthcare", "Health"),
   ("wellness", "Health"),
   ("entertainment", "Entertainment"),
   ("movies", "Entertainment"),
   ("science", "Science"),
   ("education", "Science"),
   ("other", "Other"),
   ("general", "General")]

/-- Embeds `normalizeCategory` (news.service.js lines 18-51).  `if (!category)
return 'General'`: the absent/empty (falsy) input is modelled by `""`.
Otherwise the lowercased input is looked up in `categoryMap`
(`categoryMap[lowerCategory]`), and an unmatched input is returned with
its first letter capitalized. -/
def normalizeCategory (category : String) : String :=
  if category = "" then "General"
  else
    match categoryMap.lookup (toLowerStr category) with
    | some v => v
    | none => capitalizeStr category

/-- The `enum` of the `categories` path of the `news` Mongoose schema
(news.model.js line 44).  Note that it does not contain `"General"`. -/
def categoriesEnum : List String :=
  ["India", "World", "Tech", "Politics", "Business", "Sports", "Health",
   "Entertainment", "Science", "Other"]

/-- A persisted `NewsItem` document of the `news` collection
(news.model.js).  The store-managed `createdAt`/`updatedAt` timestamps
are omitted; `publishedAt` is a millisecond timestamp. -/
structure News where
  title : String
  imageUrl : String
  summary : Option String
  publishedAt : Int
  source : String
  author : String
  categories : List String
  url : String
deriving Repr, DecidableEq

/-- Mongoose validation of a candidate `news` document: `required`
string paths (`title`, `source`, `url`) must be non-empty, `categories`
must be non-empty (the custom `validator` of news.model.js lines 38-43)
and every element of `categories` must belong to the schema `enum`
(news.model.js line 44). -/
def newsValid (n : News) : Bool :=
  n.title ≠ "" && n.source ≠ "" && n.url ≠ "" &&
  !n.categories.isEmpty && n.categories.all (fun c => categoriesEnum.contains c)

/-! ### Text utilities used by the Content Extractor

`isWs` models the ASCII core of the JS `\s` regex class; `splitWs`
models `content.split(/\s+/)` (a leading whitespace run yields a
leading empty piece, the empty string yields `[""]`); `stripHtml`
models `content.replace(/<[^>]+>/g, '')`; `trimStr` models
`String.prototype.trim`; `joinWords` models `Array.prototype.join(' ')`. -/

def isWs (c : Char) : Bool := c = ' ' || c = '\t' || c = '\n' || c = '\r'

/-- Splitting on maximal whitespace runs, one character at a time:
`inWs` records that the previous character belonged to a (already
emitted) separator run, `acc` holds the current piece reversed. -/
def splitWsGo (inWs : Bool) : List Char → List Char → List String
  | [], acc => [⟨acc.reverse⟩]
  | c :: rest, acc =>
    if isWs c then
      if inWs then splitWsGo true rest acc
      else ⟨acc.reverse⟩ :: splitWsGo true rest []
    else splitWsGo false rest (c :: acc)

def splitWs (s : String) : List String := splitWsGo false s.data []

/-- Removal of `/<[^>]+>/g` matches, one character at a time: on a `<`
that opens a match (a non-empty non-`>` run followed by a `>`), switch
to `inTag` mode and consume up to and including the closing `>`. -/
def stripHtmlGo (inTag : Bool) : List Char → List Char
  | [] => []
  | c :: rest =>
    if inTag then
      if c = '>' then stripHtmlGo false rest else stripHtmlGo true rest
    else if c = '<' && !(rest.takeWhile (fun x => x ≠ '>')).isEmpty &&
        !(rest.dropWhile (fun x => x ≠ '>')).isEmpty then
      stripHtmlGo true rest
    else c :: stripHtmlGo false rest

def stripHtml (s : String) : String := ⟨stripHtmlGo false s.data⟩

def trimStr (s : String) : String :=
  ⟨((s.data.dropWhile isWs).reverse.dropWhile isWs).reverse⟩

def joinWords : List String → String
  | [] => ""
  | [w] => w
  | w :: rest => w ++ " " ++ joinWords rest

/-! ### The feed entry and the Content Extractor -/

/-- A parsed RSS feed entry as the news processor sees it (rss-parser
output plus the custom fields `media`, `contentEncoded`, `enclosure`).
A field that can be absent is the empty string (falsy), except
`pubDate` where `none` models absence; `mediaUrl` is `item.media.$.url`
and `enclosureUrl` is `item.enclosure.url`, `""` when any link of the
chain is absent. -/
structure FeedEntry where
  title : String
  link : String
  pubDate : Option Int
  creator : String
  author : String
  contentSnippet : String
  description : String
  content : String
  contentEncoded : String
  mediaUrl : String
  enclosureUrl : String
deriving Repr, DecidableEq

/-- An `<img>` element of a fetched article page as cheerio reports it
to `fetchArticleImage`: `src`/`data-src` attributes (`""` if absent)
and `parseInt(attr, 10) || 0` of the declared dimensions. -/
structure ArticleImg where
  src : String
  dataSrc : String
  width : Nat
  height : Nat
deriving Repr, DecidableEq

/-- The cheerio view of a fetched article page used by
`fetchArticleImage`: the `og:image` and `twitter:image` meta contents
(`""` if absent) and the `<img>` elements in document order.  The
HTML parsing itself is the external cheerio capability. -/
structure ArticlePage where
  ogImage : String
  twitterImage : String
  imgs : List ArticleImg
deriving Repr, DecidableEq

/-- The `$('img').each(...)` loop of `fetchArticleImage` (news
processor lines 211-225): the first image, in document order, whose
`data-src || src` is non-empty and whose dimensions are either both
undeclared (`0`) or both exceed 100. -/
def firstLargeImg : List ArticleImg → String
  | [] => ""
  | img :: rest =>
    let imgSrc := if img.dataSrc ≠ "" then img.dataSrc else img.src
    if imgSrc ≠ "" &&
        ((img.width == 0 && img.height == 0) ||
         (decide (img.width > 100) && decide (img.height > 100))) then imgSrc
    else firstLargeImg rest

/-- Embeds `fetchArticleImage` (news processor lines 185-232).  `page = none`
models an axios request error, absorbed by the `catch` into `''`. -/
def fetchArticleImage (page : Option ArticlePage) : String :=
  match page with
  | none => ""
  | some p =>
    if p.ogImage ≠ "" then p.ogImage
    else if p.twitterImage ≠ "" then p.twitterImage
    else firstLargeImg p.imgs

/-- One backtracking attempt of the regex `/<img[^>]+src="([^"]+)"/`:
with `rest` the characters following `<img`, test whether the literal
`src="` occurs at offset `k` (so `[^>]+` consumed `k` characters) with
a non-empty, `"`-terminated capture after it. -/
def srcAttrAt (rest : List Char) (k : Nat) : Option String :=
  let tail := rest.drop k
  if tail.take 5 = ['s', 'r', 'c', '=', '"'] then
    let cap := (tail.drop 5).takeWhile (fun c => c ≠ '"')
    if cap ≠ [] ∧ (tail.drop 5).dropWhile (fun c => c ≠ '"') ≠ [] then some ⟨cap⟩
    else none
  else none

/-- Greedy backtracking of `[^>]+`: the largest offset `k ≥ 1` at which
`srcAttrAt` succeeds, tried from `k` downward. -/
def srcSearch (rest : List Char) : Nat → Option String
  | 0 => none
  | k + 1 =>
    match srcAttrAt rest (k + 1) with
    | some s => some s
    | none => srcSearch rest k

/-- Embeds `content.match(/<img[^>]+src="([^"]+)"/)` (news processor line
252): the leftmost position where `<img` is followed by a greedy
non-`>` run and a `src="..."` attribute; returns capture group 1. -/
def findImgSrcGo : List Char → Option String
  | [] => none
  | c :: restAll =>
    if (c :: restAll).take 4 = ['<', 'i', 'm', 'g'] then
      let rest := (c :: restAll).drop 4
      match srcSearch rest (rest.takeWhile (fun x => x ≠ '>')).length with
      | some s => some s
      | none => findImgSrcGo restAll
    else findImgSrcGo restAll

def findImgSrc (s : String) : Option String := findImgSrcGo s.data

/-- Embeds `item.contentEncoded || item.content || item.description || ''`
(news processor line 251). -/
def imageScanContent (item : FeedEntry) : String :=
  if item.contentEncoded ≠ "" then item.contentEncoded
  else if item.content ≠ "" then item.content
  else if item.description ≠ "" then item.description
  else ""

def placeholderImage : String := "https://placehold.co/640x360?text=News+Image"

/-- Embeds `extractImageUrl` (news processor lines 239-269).  `fetchPage` is
the outcome of the axios+cheerio fetch of `item.link` (the network
capability), `none` meaning a request error. -/
def extractImageUrl (item : FeedEntry) (fetchPage : Option ArticlePage) : String :=
  if item.mediaUrl ≠ "" then item.mediaUrl
  else if item.enclosureUrl ≠ "" then item.enclosureUrl
  else
    match findImgSrc (imageScanContent item) with
    | some u => u
    | none =>
      if item.link ≠ "" then
        let articleImage := fetchArticleImage fetchPage
        if articleImage ≠ "" then articleImage else placeholderImage
      else placeholderImage

/-- Embeds `item.contentSnippet || item.description || ''` (news processor
line 347). -/
def descSource (item : FeedEntry) : String :=
  if item.contentSnippet ≠ "" then item.contentSnippet
  else if item.description ≠ "" then item.description
  else ""

/-- Embeds `fetchArticleSummary` (news processor lines 276-338).  `fetchText`
is the paragraph text scraped from the article page by the cheerio
selector cascade (the external capability), already concatenated as
the code's `content` variable just before the final `trim`; `none`
models an axios request error (the `catch` returns `null`). -/
def fetchArticleSummary (fetchText : Option String) : Option String :=
  match fetchText with
  | none => none
  | some raw =>
    let content := trimStr raw
    if content.length > 0 then
      let words := splitWs content
      let wordCount := min words.length 100
      some (joinWords (words.take wordCount) ++
        if wordCount < words.length then "..." else "")
    else none

/-- Embeds `extractDescription` (news processor lines 345-373). -/
def extractDescription (item : FeedEntry) (fetchText : Option String) :
    Option String :=
  let content0 := descSource item
  if content0 = "null" ∨ content0 = "" then
    if item.link ≠ "" then fetchArticleSummary fetchText else none
  else
    let content1 := trimStr (stripHtml content0)
    if content1 = "" ∧ item.link ≠ "" then fetchArticleSummary fetchText
    else
      let words := splitWs content1
      if words.length > 100 then some (joinWords (words.take 100) ++ "...")
      else if content1.length > 0 then some content1 else none

/-- A blank feed entry used for concrete witnesses. -/
def emptyEntry : FeedEntry :=
  { title := "t", link := "", pubDate := none, creator := "", author := "",
    contentSnippet := "", description := "", content := "", contentEncoded := "",
    mediaUrl := "", enclosureUrl := "" }

/-! ### The Feed Fetcher/Processor -/

/-- One entry of the Source Registry (feed-sources.js). -/
structure FeedSource where
  url : String
  category : String
  source : String
deriving Repr, DecidableEq

def afterScheme : List Char → Option (List Char)
  | [] => none
  | ':' :: '/' :: '/' :: rest => some rest
  | _ :: rest => afterScheme rest

/-- Embeds `extractHostname` (news processor lines 380-388): `new
URL(urlString).hostname`, with the catch returning `"unknown"`.  The
WHATWG URL parse is modelled for the `scheme://host/...` shape of the
registry's feed URLs: the characters between the scheme separator and
the next delimiter; a string the URL constructor rejects (no scheme
separator, empty host) yields `"unknown"`. -/
def extractHostname (urlString : String) : String :=
  match afterScheme urlString.data with
  | none => "unknown"
  | some rest =>
    let host := rest.takeWhile
      (fun c => c ≠ '/' && c ≠ ':' && c ≠ '?' && c ≠ '#')
    if host.isEmpty then "unknown" else ⟨host⟩

/-- The per-entry network capability: the article-page fetch results
for a link, as consumed by `extractImageUrl` (parsed page) and
`extractDescription` (scraped paragraph text). -/
structure FetchWorld where
  page : String → Option ArticlePage
  text : String → Option String

/-- The `newsItem` object literal built for one feed entry (news
processor lines 452-477).  `normCat` is the `normalizedCategory`
computed once per feed; `now` models `new Date()` for the `pubDate`
fallback. -/
def buildNewsItem (fs : FeedSource) (normCat : String) (now : Int)
    (w : FetchWorld) (item : FeedEntry) : News :=
  let source := if fs.source ≠ "" then fs.source else extractHostname fs.url
  { title := item.title
    summary := extractDescription item (w.text item.link)
    author := if item.creator ≠ "" then item.creator
              else if item.author ≠ "" then item.author else "Unknown"
    url := item.link
    publishedAt := match item.pubDate with | some d => d | none => now
    source := source
    imageUrl := extractImageUrl item (w.page item.link)
    categories := [if normCat ≠ "" then normCat else "General"] }

/-- The persisted `news` collection, in insertion order. -/
abbrev NewsStore := List News

/-- Embeds the lookup `News.findOne({ title, source })` (news processor lines 480-483). -/
def findExisting (store : NewsStore) (title source : String) : Option News :=
  store.find? (fun n => n.title == title && n.source == source)

/-- The `for (const item of feed.items)` loop of `processFeed` (news
processor lines 452-494): for each entry, build the candidate, look up
an existing record with the same `(title, source)`; if none, `save()`
it — a Mongoose validation failure on save raises, aborting the loop
(the items saved before it remain stored, and `processFeed`'s catch
returns `[]`).  Returns (store, pushed items, aborted?). -/
def processItems (fs : FeedSource) (normCat : String) (now : Int) (w : FetchWorld) :
    List FeedEntry → NewsStore → List News → NewsStore × List News × Bool
  | [], store, acc => (store, acc.reverse, false)
  | item :: rest, store, acc =>
    let newsItem := buildNewsItem fs normCat now w item
    match findExisting store newsItem.title newsItem.source with
    | some _ => processItems fs normCat now w rest store acc
    | none =>
      if newsValid newsItem then
        processItems fs normCat now w rest (store ++ [newsItem]) (newsItem :: acc)
      else (store, [], true)

/-- Embeds `processFeed` (news processor lines 435-501).  `feedResult` is the
rss-parser outcome for `fs.url`: `none` models a fetch/parse failure of
the whole feed; the surrounding try/catch absorbs every error into
`[]`.  Returns the updated store and the array of newly inserted
items. -/
def processFeed (fs : FeedSource) (now : Int) (w : FetchWorld)
    (feedResult : Option (List FeedEntry)) (store : NewsStore) :
    NewsStore × List News :=
  match feedResult with
  | none => (store, [])
  | some items =>
    let normalizedCategory := normalizeCategory fs.category
    let r := processItems fs normalizedCategory now w items store []
    (r.1, r.2.1)

/-- The aggregate `results` object of `processAllFeeds` (news processor
lines 510-517, without the wall-clock fields). -/
structure FeedResults where
  totalProcessed : Nat
  newItems : Nat
  errors : Nat
  categoryCounts : List (String × Nat)
deriving Repr, DecidableEq

/-- The `results.categoryCounts` update (news processor lines 527-539):
initialize or increment the per-category counter. -/
def bumpCount (counts : List (String × Nat)) (cat : String) (k : Nat) :
    List (String × Nat) :=
  match counts.lookup cat with
  | none => counts ++ [(cat, k)]
  | some v => counts.map (fun p => if p.1 == cat then (p.1, v + k) else p)

def processAllGo (now : Int) (w : FetchWorld)
    (feeds : FeedSource → Option (List FeedEntry)) :
    List FeedSource → NewsStore → FeedResults → NewsStore × FeedResults
  | [], store, results => (store, results)
  | fs :: rest, store, results =>
    let r := processFeed fs now w (feeds fs) store
    let results1 := { results with
      totalProcessed := results.totalProcessed + 1
      newItems := results.newItems + r.2.length }
    let results2 :=
      if r.2.length > 0 then
        { results1 with categoryCounts := (bumpCount results1.categoryCounts
            (normalizeCategory fs.category) r.2.length) }
      else results1
    processAllGo now w feeds rest r.1 results2

/-- Embeds `processAllFeeds` (news processor lines 507-559): sequentially
process every registered source.  Each iteration runs inside
`try { ... } catch { results.errors += 1 }`, but the embedded
`processFeed` — like the JS one, whose whole body is wrapped in its own
try/catch returning `[]` — never throws, so the `errors` increment is
unreachable and `errors` stays at its initial `0`. -/
def processAllFeeds (sources : List FeedSource) (now : Int) (w : FetchWorld)
    (feeds : FeedSource → Option (List FeedEntry)) (store : NewsStore) :
    NewsStore × FeedResults :=
  processAllGo now w feeds sources store
    { totalProcessed := 0, newItems := 0, errors := 0, categoryCounts := [] }

/-! ### The news-service Read query -/

/-- The `category` argument of the service `getNews` as the controller
passes it: absent (`undefined`), a single string, or an array of
strings. -/
inductive CategoryParam where
  | absent
  | one (s : String)
  | many (l : List String)
deriving Repr, DecidableEq

/-- The Mongo query built by `getNews` (news.service.js lines 63-76),
as the predicate it denotes on `news` documents: `{}` when `category`
is falsy (absent, or the empty string), `{categories: {$in:
normalized}}` for an array (any element of the document's `categories`
array is in the normalized list), `{categories: normalized}` for a
string (array-contains semantics). -/
def newsQuery : CategoryParam → News → Bool
  | .absent, _ => true
  | .one s, n =>
    if s = "" then true else n.categories.contains (normalizeCategory s)
  | .many l, n =>
    (l.map normalizeCategory).any (fun c => n.categories.contains c)

/-- The `.sort({ publishedAt: -1 })` comparator: descending by
`publishedAt`. -/
def byPublishedDesc (a b : News) : Bool := decide (b.publishedAt ≤ a.publishedAt)

/-- The `{ results, totalResults }` object returned by the service
query functions. -/
structure QueryPage where
  results : List News
  totalResults : Nat
deriving Repr, DecidableEq

/-- Embeds `getNews` (news.service.js lines 60-114): `skip = (page-1)*limit`;
`totalResults = countDocuments(query)` over the whole store;
`results = find(query).sort({publishedAt:-1}).skip(skip).limit(limit)`.
The surrounding try/catch only remaps thrown DB errors and is the
controller's concern; the store is modelled as the list of documents
and the sort by a (stable) merge sort. -/
def getNews (store : NewsStore) (category : CategoryParam) (page limit : Nat) :
    QueryPage :=
  let skip := (page - 1) * limit
  let matching := store.filter (newsQuery category)
  { results := ((matching.mergeSort byPublishedDesc).drop skip).take limit
    totalResults := matching.length }

/-! ### The Read Path controller and its caches -/

/-- The controller's cache keys.  The JS code uses the template strings
`news-${JSON.stringify(categories)}-${page}-${limit}` and
`latest-${page}-${limit}` over one shared `Map`; the encoding is
injective on these request shapes, so the key is modelled by the tagged
tuple itself (`category` is the raw `req.query.category`, `none` when
absent). -/
inductive CacheKey where
  | news (category : Option String) (page limit : Nat)
  | latest (page limit : Nat)
deriving Repr, DecidableEq

/-- A fallback-cache entry `{ data: { results, totalResults }, expiry }`
(news.controller.js lines 43-46). -/
structure CachedResponse where
  data : QueryPage
  expiry : Int
deriving Repr, DecidableEq

/-- Models `Map.prototype.set`: update the key in place, else append. -/
def cacheSet (m : List (CacheKey × CachedResponse)) (k : CacheKey)
    (v : CachedResponse) : List (CacheKey × CachedResponse) :=
  if m.any (fun p => p.1 == k) then
    m.map (fun p => if p.1 == k then (k, v) else p)
  else m ++ [(k, v)]

/-- Models `Map.prototype.get`. -/
def cacheGet (m : List (CacheKey × CachedResponse)) (k : CacheKey) :
    Option CachedResponse :=
  (m.find? (fun p => p.1 == k)).map Prod.snd

/-- Embeds `FALLBACK_CACHE_TTL = 30 * 60 * 1000` (news.controller.js line 14). -/
def FALLBACK_CACHE_TTL : Int := 30 * 60 * 1000

/-- The JSON responses the `getNews` controller can produce: a 200
success (with the `warning` field present exactly on the
fallback-cache path) or the 503 service-unavailable error. -/
inductive ControllerResponse where
  | ok (currentPage totalPages totalResults : Nat) (results : List News)
      (warning : Bool)
  | unavailable
deriving Repr, DecidableEq

/-- Models `Math.ceil(totalResults / limit)` for the positive `limit` the
controller always has (`parseInt(...) || 10`). -/
def totalPagesOf (totalResults limitN : Nat) : Nat :=
  (totalResults + limitN - 1) / limitN

/-- The `getNews` controller (news.controller.js lines 21-95).
`dbResult` is the outcome of `await newsService.getNews(...)` (the
store read); `.error` models the service throwing (store unavailable
or timed out).  `now` models `Date.now()`.  On success the fallback
cache is updated under the computed key; on failure a non-expired
fallback entry is served with a staleness warning, else a 503 is
returned.  Returns the response and the updated fallback cache. -/
def getNewsController (category : Option String) (page limit : Nat)
    (dbResult : Except Unit QueryPage)
    (cache : List (CacheKey × CachedResponse)) (now : Int) :
    ControllerResponse × List (CacheKey × CachedResponse) :=
  let cacheKey := CacheKey.news category page limit
  match dbResult with
  | .ok qp =>
    let cache1 := cacheSet cache cacheKey
      { data := qp, expiry := now + FALLBACK_CACHE_TTL }
    (.ok page (totalPagesOf qp.totalResults limit) qp.totalResults qp.results
      false, cache1)
  | .error _ =>
    match cacheGet cache cacheKey with
    | some cr =>
      if cr.expiry > now then
        (.ok page (totalPagesOf cr.data.totalResults limit)
          cr.data.totalResults cr.data.results true, cache)
      else (.unavailable, cache)
    | none => (.unavailable, cache)

/-- Embeds `DEFAULT_CACHE_EXPIRATION = 5 * 60` seconds (cache.util.js line
185), in milliseconds. -/
def FAST_CACHE_TTL : Int := 5 * 60 * 1000

/-- The response together with the number of store queries made while
serving the request. -/
structure ReadOutcome where
  response : ControllerResponse
  storeCalls : Nat
deriving Repr, DecidableEq

/-- The store-miss branch of the Redis-fronted read path: query the
store (one call), on success respond and refresh the fast cache (5 min
TTL) and the fallback cache (30 min TTL); on failure behave exactly as
`getNewsController`'s fallback path. -/
def readPathStoreQuery (category : Option String) (page limit : Nat)
    (dbResult : Except Unit QueryPage)
    (fastCache fallbackCache : List (CacheKey × CachedResponse)) (now : Int) :
    ReadOutcome ×
      (List (CacheKey × CachedResponse) × List (CacheKey × CachedResponse)) :=
  let cacheKey := CacheKey.news category page limit
  match dbResult with
  | .ok qp =>
    ({ response := .ok page (totalPagesOf qp.totalResults limit)
        qp.totalResults qp.results false, storeCalls := 1 },
     (cacheSet fastCache cacheKey { data := qp, expiry := now + FAST_CACHE_TTL },
      cacheSet fallbackCache cacheKey
        { data := qp, expiry := now + FALLBACK_CACHE_TTL }))
  | .error _ =>
    match cacheGet fallbackCache cacheKey with
    | some cr =>
      if cr.expiry > now then
        ({ response := .ok page (totalPagesOf cr.data.totalResults limit)
            cr.data.totalResults cr.data.results true, storeCalls := 1 },
         (fastCache, fallbackCache))
      else ({ response := .unavailable, storeCalls := 1 },
        (fastCache, fallbackCache))
    | none => ({ response := .unavailable, storeCalls := 1 },
        (fastCache, fallbackCache))

/-- Modelled from the spec: the fast-cache (Redis) consultation step of
the Read Path.  The repository ships the cache utility
(`getCache`/`setCache`, cache.util.js) and README-REDIS-CACHE.md states
that the news controllers "first check Redis cache before querying the
database", but the Redis-wired controller itself is not among the
provided sources; this definition follows spec §4.6: compute the
deterministic key, consult the fast cache, and on a non-expired hit
return the cached payload immediately — the store is not queried
(`storeCalls = 0`); on a miss (or expired entry, which Redis's TTL
reports as a miss) run the store query branch. -/
def readPathWithFastCache (category : Option String) (page limit : Nat)
    (dbResult : Except Unit QueryPage)
    (fastCache fallbackCache : List (CacheKey × CachedResponse)) (now : Int) :
    ReadOutcome ×
      (List (CacheKey × CachedResponse) × List (CacheKey × CachedResponse)) :=
  let cacheKey := CacheKey.news category page limit
  match cacheGet fastCache cacheKey with
  | some cr =>
    if cr.expiry > now then
      ({ response := .ok page (totalPagesOf cr.data.totalResults limit)
          cr.data.totalResults cr.data.results false, storeCalls := 0 },
       (fastCache, fallbackCache))
    else
      readPathStoreQuery category page limit dbResult fastCache fallbackCache now
  | none =>
    readPathStoreQuery category page limit dbResult fastCache fallbackCache now

/-- A concrete store of four items over three categories for the C2
witness. -/
def sampleStore : NewsStore :=
  [{ title := "a", imageUrl := "", summary := none, publishedAt := 3,
     source := "S", author := "A", categories := ["World"], url := "u1" },
   { title := "b", imageUrl := "", summary := none, publishedAt := 7,
     source := "S", author := "A", categories := ["Tech"], url := "u2" },
   { title := "c", imageUrl := "", summary := none, publishedAt := 5,
     source := "S", author := "A", categories := ["India"], url := "u3" },
   { title := "d", imageUrl := "", summary := none, publishedAt := 1,
     source := "S", author := "A", categories := ["World", "Tech"],
     url := "u4" }]

/-- A blank fetch world (every article fetch fails), for witnesses. -/
def emptyWorld : FetchWorld := ⟨fun _ => none, fun _ => none⟩

/-- A feed source whose category is not in the synonym table and whose
title-cased pass-through is outside the schema enum. -/
def cricketSource : FeedSource :=
  { url := "http://x.example/feed", category := "cricket", source := "X" }

def cricketEntry : FeedEntry :=
  { title := "Match report", link := "http://x.example/a", pubDate := some 5,
    creator := "", author := "", contentSnippet := "", description := "",
    content := "", contentEncoded := "", mediaUrl := "", enclosureUrl := "" }

def badSource : FeedSource :=
  { url := "http://x.example/feed", category := "Tech", source := "X" }

example : normalizeCategory "TECHNOLOGY" = "Tech" := by decide

example : normalizeCategory "Gadgets" = "Tech" := by decide

example : normalizeCategory "tech" = "Tech" := by decide

example : normalizeCategory "economy" = "Business" := by decide

example : normalizeCategory "" = "General" := by decide

example : normalizeCategory "cricket" = "Cricket" := by decide

example : splitWs "a b" = ["a", "b"] := by decide

example : splitWs "" = [""] := by decide

example : splitWs "a   b c" = ["a", "b", "c"] := by decide

example : splitWs " a" = ["", "a"] := by decide

example : splitWs "a " = ["a", ""] := by decide

example : stripHtml "<p>hi</p> there" = "hi there" := by decide

example : stripHtml "a <b>bold</b> c" = "a bold c" := by decide

example : stripHtml "x <> y < z" = "x <> y < z" := by decide

example : trimStr "  a b  " = "a b" := by decide

example : joinWords ["a", "b", "c"] = "a b c" := by decide

example : findImgSrc "<p>x</p><img class=\"a\" src=\"http://e/i.png\" w>" =
    some "http://e/i.png" := by decide

example : findImgSrc "no tags here" = none := by decide

/-! ### Word-count lemmas for the summary extractor -/

theorem dropWhile_head_false {α : Type} (p : α → Bool) :
    ∀ (l : List α) (c : α), (l.dropWhile p).head? = some c → p c = false := by
  intro l
  induction l with
  | nil => intro c h; simp [List.dropWhile] at h
  | cons a rest ih =>
    intro c h
    rw [List.dropWhile_cons] at h
    by_cases ha : p a
    · rw [if_pos ha] at h
      exact ih c h
    · rw [if_neg ha] at h
      simp only [List.head?_cons, Option.some.injEq] at h
      rw [← h]
      cases hpa : p a with
      | false => rfl
      | true => exact absurd hpa ha

theorem splitWsGo_noWs :
    ∀ (cs : List Char) (inWs : Bool) (acc : List Char),
      (∀ c ∈ acc, isWs c = false) →
      ∀ p ∈ splitWsGo inWs cs acc, ∀ c ∈ p.data, isWs c = false := by
  intro cs
  induction cs with
  | nil =>
    intro inWs acc hacc p hp c hc
    simp only [splitWsGo, List.mem_singleton] at hp
    subst hp
    exact hacc c (List.mem_reverse.mp hc)
  | cons a rest ih =>
    intro inWs acc hacc p hp c hc
    rw [splitWsGo] at hp
    by_cases hws : isWs a
    · rw [if_pos hws] at hp
      cases inWs with
      | true =>
        simp only [if_true] at hp
        exact ih true acc hacc p hp c hc
      | false =>
        simp only [Bool.false_eq_true, if_false, List.mem_cons] at hp
        rcases hp with hp | hp
        · subst hp
          exact hacc c (List.mem_reverse.mp hc)
        · exact ih true [] (by simp) p hp c hc
    · rw [if_neg hws] at hp
      refine ih false (a :: acc) ?_ p hp c hc
      intro x hx
      rcases List.mem_cons.mp hx with hx | hx
      · subst hx
        cases hpa : isWs x with
        | false => rfl
        | true => exact absurd hpa hws
      · exact hacc x hx

theorem splitWsGo_ne_nil (cs : List Char) :
    ∀ (inWs : Bool) (acc : List Char), splitWsGo inWs cs acc ≠ [] := by
  induction cs with
  | nil => intro inWs acc; simp [splitWsGo]
  | cons a rest ih =>
    intro inWs acc
    rw [splitWsGo]
    by_cases hws : isWs a
    · rw [if_pos hws]
      cases inWs with
      | true => simpa using ih true acc
      | false => simp
    · rw [if_neg hws]
      exact ih false (a :: acc)

theorem splitWsGo_pieces_ne :
    ∀ (cs : List Char) (inWs : Bool) (acc : List Char),
      (cs = [] → acc ≠ []) →
      (∀ c, cs.getLast? = some c → isWs c = false) →
      (inWs = false → acc = [] → ∀ c, cs.head? = some c → isWs c = false) →
      ∀ p ∈ splitWsGo inWs cs acc, p.data ≠ [] := by
  intro cs
  induction cs with
  | nil =>
    intro inWs acc h1 _ _ p hp
    simp only [splitWsGo, List.mem_singleton] at hp
    subst hp
    simpa using h1 rfl
  | cons a rest ih =>
    intro inWs acc h1 h2 h3 p hp
    rw [splitWsGo] at hp
    have hrestne : isWs a = true → rest ≠ [] := by
      intro hws hrest
      subst hrest
      have := h2 a (by simp)
      rw [this] at hws
      exact Bool.noConfusion hws
    have h2' : rest ≠ [] → ∀ c, rest.getLast? = some c → isWs c = false := by
      intro hne c hcl
      apply h2 c
      cases rest with
      | nil => exact absurd rfl hne
      | cons b l => rw [List.getLast?_cons_cons]; exact hcl
    by_cases hws : isWs a
    · rw [if_pos hws] at hp
      have hne := hrestne hws
      cases inWs with
      | true =>
        simp only [if_true] at hp
        refine ih true acc (fun h => absurd h hne) (h2' hne) (by simp) p hp
      | false =>
        simp only [Bool.false_eq_true, if_false, List.mem_cons] at hp
        rcases hp with hp | hp
        · subst hp
          have hacc : acc ≠ [] := by
            intro haccnil
            have := h3 rfl haccnil a (by simp)
            rw [this] at hws
            exact Bool.noConfusion hws
          simpa using hacc
        · exact ih true [] (fun h => absurd h hne) (h2' hne) (by simp) p hp
    · rw [if_neg hws] at hp
      refine ih false (a :: acc) (by simp) ?_ (by simp) p hp
      intro c hcl
      cases hre : rest with
      | nil =>
        subst hre
        simp at hcl
      | cons b l =>
        subst hre
        exact h2' (by simp) c hcl

/-- Pushing an all-non-whitespace prefix into the accumulator. -/
theorem splitWsGo_append_nonws :
    ∀ (cs ds acc : List Char), (∀ c ∈ cs, isWs c = false) →
      splitWsGo false (cs ++ ds) acc = splitWsGo false ds (cs.reverse ++ acc) := by
  intro cs
  induction cs with
  | nil => intro ds acc _; simp
  | cons a rest ih =>
    intro ds acc hnws
    have ha : isWs a = false := hnws a (by simp)
    simp only [List.cons_append]
    rw [splitWsGo, if_neg (by simp [ha])]
    rw [ih ds (a :: acc) (fun c hc => hnws c (List.mem_cons_of_mem a hc))]
    simp

/-- In separator-skipping mode a non-whitespace head behaves as in
copying mode. -/
theorem splitWsGo_true_of_head_nonws (d : Char) (ds acc : List Char)
    (hd : isWs d = false) :
    splitWsGo true (d :: ds) acc = splitWsGo false (d :: ds) acc := by
  rw [splitWsGo, splitWsGo, if_neg (by simp [hd]), if_neg (by simp [hd])]

theorem string_data_append (a b : String) : (a ++ b).data = a.data ++ b.data := rfl

theorem joinWords_data_cons (w y : String) (rest : List String) :
    (joinWords (w :: y :: rest)).data =
      w.data ++ ' ' :: (joinWords (y :: rest)).data := by
  rw [show joinWords (w :: y :: rest) = w ++ " " ++ joinWords (y :: rest) from rfl]
  rw [string_data_append, string_data_append]
  simp

theorem joinWords_head_data (y : String) (rest : List String) :
    ∃ ds, (joinWords (y :: rest)).data = y.data ++ ds := by
  cases rest with
  | nil => exact ⟨[], by simp [joinWords]⟩
  | cons z r => exact ⟨' ' :: (joinWords (z :: r)).data, joinWords_data_cons y z r⟩

/-- Joining a non-empty list of non-empty, non-whitespace words,
followed by a non-whitespace suffix glued to the last word, splits back
into exactly as many pieces as there were words. -/
theorem length_splitWs_joinWords :
    ∀ (l : List String), l ≠ [] →
      (∀ w ∈ l, w.data ≠ [] ∧ ∀ c ∈ w.data, isWs c = false) →
      ∀ (sfx : String), (∀ c ∈ sfx.data, isWs c = false) →
      (splitWs (joinWords l ++ sfx)).length = l.length := by
  intro l
  induction l with
  | nil => intro h; exact absurd rfl h
  | cons w rest ih =>
    intro _ hw sfx hsfx
    cases rest with
    | nil =>
      have hwd := hw w (by simp)
      unfold splitWs
      rw [show joinWords [w] = w from rfl, string_data_append]
      rw [splitWsGo_append_nonws w.data sfx.data [] hwd.2]
      rw [show sfx.data = sfx.data ++ [] from by simp]
      rw [splitWsGo_append_nonws sfx.data [] _ hsfx]
      simp [splitWsGo]
    | cons y rest2 =>
      have hwd := hw w (by simp)
      have hyd := hw y (by simp)
      unfold splitWs
      rw [string_data_append, joinWords_data_cons, List.append_assoc,
        List.cons_append]
      rw [splitWsGo_append_nonws w.data _ [] hwd.2]
      rw [splitWsGo, if_pos (by decide : isWs ' ' = true)]
      simp only [Bool.false_eq_true, if_false, List.length_cons]
      obtain ⟨ds, hds⟩ := joinWords_head_data y rest2
      have hjs : (joinWords (y :: rest2)).data ++ sfx.data =
          y.data ++ (ds ++ sfx.data) := by rw [hds, List.append_assoc]
      cases hy : y.data with
      | nil => exact absurd hy hyd.1
      | cons d ds0 =>
        have hd : isWs d = false := hyd.2 d (by rw [hy]; simp)
        rw [hjs, hy, List.cons_append]
        rw [splitWsGo_true_of_head_nonws d _ [] hd]
        rw [← List.cons_append, ← hy, ← hjs]
        have hihx := ih (by simp) (fun x hx => hw x (List.mem_cons_of_mem w hx))
          sfx hsfx
        unfold splitWs at hihx
        rw [string_data_append] at hihx
        rw [hihx]
        simp

/-- The pieces of `splitWs` applied to a non-empty trimmed string are
non-empty words without whitespace. -/
theorem splitWs_trimStr_pieces (x : String) (h : trimStr x ≠ "") :
    ∀ p ∈ splitWs (trimStr x), p.data ≠ [] ∧ ∀ c ∈ p.data, isWs c = false := by
  have hdata : (trimStr x).data =
      ((x.data.dropWhile isWs).reverse.dropWhile isWs).reverse := rfl
  have hne : (trimStr x).data ≠ [] := by
    intro hc
    apply h
    cases ht : trimStr x with
    | mk d =>
      rw [ht] at hc
      simp only at hc
      subst hc
      rfl
  intro p hp
  constructor
  · refine splitWsGo_pieces_ne (trimStr x).data false [] (fun h => absurd h hne)
      ?_ ?_ p hp
    · intro c hcl
      rw [hdata, List.getLast?_reverse] at hcl
      exact dropWhile_head_false isWs _ c hcl
    · intro _ _ c hch
      rw [hdata, List.head?_reverse] at hch
      have hsuf : (x.data.dropWhile isWs).reverse.dropWhile isWs <:+
          (x.data.dropWhile isWs).reverse := List.dropWhile_suffix _
      obtain ⟨t, htu⟩ := hsuf
      have huh : (x.data.dropWhile isWs).head? = some c := by
        rw [← List.getLast?_reverse, ← htu, List.getLast?_append, hch]
        rfl
      exact dropWhile_head_false isWs _ c huh
  · exact splitWsGo_noWs (trimStr x).data false [] (by simp) p hp

theorem string_ne_empty_data {s : String} (h : s ≠ "") : s.data ≠ [] := by
  intro hc
  apply h
  cases s with
  | mk d =>
    simp only at hc
    subst hc
    rfl

/-- Any summary produced by `fetchArticleSummary` has at most 100
words. -/
theorem fetchSummary_le100 (ft : Option String) (s : String)
    (h : fetchArticleSummary ft = some s) : (splitWs s).length ≤ 100 := by
  cases ft with
  | none => exact Option.noConfusion h
  | some raw =>
    simp only [fetchArticleSummary] at h
    by_cases hlen : (trimStr raw).length > 0
    · rw [if_pos hlen] at h
      simp only [Option.some.injEq] at h
      have htne : trimStr raw ≠ "" := by
        intro hc
        rw [hc] at hlen
        simp [String.length] at hlen
      have hpieces := splitWs_trimStr_pieces raw htne
      rw [← h]
      by_cases hL : (splitWs (trimStr raw)).length ≤ 100
      · have hmin : min (splitWs (trimStr raw)).length 100 =
            (splitWs (trimStr raw)).length := Nat.min_eq_left hL
        rw [hmin, List.take_length, if_neg (by omega), String.append_empty]
        have hnil : splitWs (trimStr raw) ≠ [] := splitWsGo_ne_nil _ false []
        have := length_splitWs_joinWords (splitWs (trimStr raw)) hnil hpieces ""
          (by simp)
        rw [String.append_empty] at this
        omega
      · have hmin : min (splitWs (trimStr raw)).length 100 = 100 :=
          Nat.min_eq_right (by omega)
        rw [hmin, if_pos (by omega)]
        have htl : ((splitWs (trimStr raw)).take 100).length = 100 := by
          rw [List.length_take]
          omega
        have hnil : (splitWs (trimStr raw)).take 100 ≠ [] := by
          intro hc
          rw [hc] at htl
          simp at htl
        have := length_splitWs_joinWords ((splitWs (trimStr raw)).take 100) hnil
          (fun w hw => hpieces w (List.mem_of_mem_take hw)) "..." (by decide)
        omega
    · rw [if_neg hlen] at h
      exact Option.noConfusion h

/-! ### Claim theorem about the summary extractor -/

/-- C9: `extractDescription` prefers the feed's own snippet (HTML
stripped, trimmed), truncating to 100 words with an `...` marker
appended exactly when more than 100 words were present (at most 100
words are returned verbatim with no marker appended); when no feed
content exists it delegates to the article fetch (`fetchArticleSummary`,
which truncates the same way) and returns `null` when no content can be
derived from the snippet, the fetched page, or a missing/failed fetch;
every produced summary has at most 100 words. -/
theorem extractDescription_truncation (item : FeedEntry) (fetchText : Option String) :
    (((descSource item = "null" ∨ descSource item = "") → item.link = "" →
      extractDescription item fetchText = none) ∧
     ((descSource item = "null" ∨ descSource item = "") → item.link ≠ "" →
      extractDescription item fetchText = fetchArticleSummary fetchText) ∧
     (¬ (descSource item = "null" ∨ descSource item = "") →
      trimStr (stripHtml (descSource item)) = "" → item.link ≠ "" →
      extractDescription item fetchText = fetchArticleSummary fetchText) ∧
     (¬ (descSource item = "null" ∨ descSource item = "") →
      trimStr (stripHtml (descSource item)) = "" → item.link = "" →
      extractDescription item fetchText = none) ∧
     (¬ (descSource item = "null" ∨ descSource item = "") →
      (splitWs (trimStr (stripHtml (descSource item)))).length > 100 →
      extractDescription item fetchText =
        some (joinWords ((splitWs (trimStr (stripHtml (descSource item)))).take 100)
          ++ "...")) ∧
     (¬ (descSource item = "null" ∨ descSource item = "") →
      trimStr (stripHtml (descSource item)) ≠ "" →
      (splitWs (trimStr (stripHtml (descSource item)))).length ≤ 100 →
      extractDescription item fetchText =
        some (trimStr (stripHtml (descSource item))))) ∧
    ((fetchText = none → fetchArticleSummary fetchText = none) ∧
     (∀ raw, fetchText = some raw → trimStr raw = "" →
      fetchArticleSummary fetchText = none) ∧
     (∀ raw, fetchText = some raw → trimStr raw ≠ "" →
      (splitWs (trimStr raw)).length > 100 →
      fetchArticleSummary fetchText =
        some (joinWords ((splitWs (trimStr raw)).take 100) ++ "...")) ∧
     (∀ raw, fetchText = some raw → trimStr raw ≠ "" →
      (splitWs (trimStr raw)).length ≤ 100 →
      fetchArticleSummary fetchText = some (joinWords (splitWs (trimStr raw))))) ∧
    (∀ s, extractDescription item fetchText = some s →
      (splitWs s).length ≤ 100) := by
  have hsplitnil : ∀ t : String, t = "" → (splitWs t).length = 1 := by
    intro t ht
    subst ht
    decide
  refine ⟨⟨?_, ?_, ?_, ?_, ?_, ?_⟩, ⟨?_, ?_, ?_, ?_⟩, ?_⟩
  · intro h0 hl
    simp only [extractDescription]
    rw [if_pos h0, if_neg (by simp [hl])]
  · intro h0 hl
    simp only [extractDescription]
    rw [if_pos h0, if_pos hl]
  · intro h0 hc1 hl
    simp only [extractDescription]
    rw [if_neg h0, if_pos ⟨hc1, hl⟩]
  · intro h0 hc1 hl
    simp only [extractDescription]
    rw [if_neg h0, if_neg (by simp [hl]), if_neg (by rw [hsplitnil _ hc1]; omega),
      if_neg (by rw [hc1]; simp [String.length])]
  · intro h0 h100
    have hc1 : trimStr (stripHtml (descSource item)) ≠ "" := by
      intro hc
      rw [hsplitnil _ hc] at h100
      omega
    simp only [extractDescription]
    rw [if_neg h0, if_neg (by simp [hc1]), if_pos h100]
  · intro h0 hc1 h100
    simp only [extractDescription]
    rw [if_neg h0, if_neg (by simp [hc1]), if_neg (by omega),
      if_pos (by
        have := string_ne_empty_data hc1
        show 0 < (trimStr (stripHtml (descSource item))).data.length
        cases hd : (trimStr (stripHtml (descSource item))).data with
        | nil => exact absurd hd this
        | cons a l => simp)]
  · intro hft
    subst hft
    rfl
  · intro raw hft htr
    subst hft
    simp only [fetchArticleSummary]
    rw [if_neg (by rw [htr]; simp [String.length])]
  · intro raw hft htr h100
    subst hft
    simp only [fetchArticleSummary]
    rw [if_pos (by
        have := string_ne_empty_data htr
        show 0 < (trimStr raw).data.length
        cases hd : (trimStr raw).data with
        | nil => exact absurd hd this
        | cons a l => simp)]
    rw [Nat.min_eq_right (by omega), if_pos (by omega)]
  · intro raw hft htr h100
    subst hft
    simp only [fetchArticleSummary]
    rw [if_pos (by
        have := string_ne_empty_data htr
        show 0 < (trimStr raw).data.length
        cases hd : (trimStr raw).data with
        | nil => exact absurd hd this
        | cons a l => simp)]
    rw [Nat.min_eq_left h100, List.take_length, if_neg (by omega),
      String.append_empty]
  · intro s hs
    simp only [extractDescription] at hs
    by_cases h0 : descSource item = "null" ∨ descSource item = ""
    · rw [if_pos h0] at hs
      by_cases hl : item.link ≠ ""
      · rw [if_pos hl] at hs
        exact fetchSummary_le100 _ _ hs
      · rw [if_neg hl] at hs
        exact Option.noConfusion hs
    · rw [if_neg h0] at hs
      by_cases h1 : trimStr (stripHtml (descSource item)) = "" ∧ item.link ≠ ""
      · rw [if_pos h1] at hs
        exact fetchSummary_le100 _ _ hs
      · rw [if_neg h1] at hs
        by_cases h2 : (splitWs (trimStr (stripHtml (descSource item)))).length > 100
        · rw [if_pos h2] at hs
          simp only [Option.some.injEq] at hs
          have hc1 : trimStr (stripHtml (descSource item)) ≠ "" := by
            intro hc
            rw [hsplitnil _ hc] at h2
            omega
          have hpieces := splitWs_trimStr_pieces (stripHtml (descSource item)) hc1
          have htl : ((splitWs (trimStr (stripHtml (descSource item)))).take
              100).length = 100 := by
            rw [List.length_take]
            omega
          have hnil : (splitWs (trimStr (stripHtml (descSource item)))).take 100
              ≠ [] := by
            intro hc
            rw [hc] at htl
            simp at htl
          have := length_splitWs_joinWords _ hnil
            (fun w hw => hpieces w (List.mem_of_mem_take hw)) "..." (by decide)
          rw [← hs]
          omega
        · rw [if_neg h2] at hs
          by_cases h3 : 0 < (trimStr (stripHtml (descSource item))).length
          · rw [if_pos h3] at hs
            simp only [Option.some.injEq] at hs
            rw [← hs]
            omega
          · rw [if_neg h3] at hs
            exact Option.noConfusion hs

/-- Witness for C9: with no snippet, no description and no link, the
extractor returns `null`. -/
theorem extractDescription_truncation_witness :
    extractDescription emptyEntry none = none :=
  (extractDescription_truncation emptyEntry none).1.1 (by decide) (by decide)

/-! ### Helper lemmas about case conversion and `categoryMap` lookup -/

theorem toNat_ofNat_small (n : Nat) (h : n < 55296) : (Char.ofNat n).toNat = n := by
  have hv : n.isValidChar := Or.inl h
  unfold Char.ofNat
  rw [dif_pos hv]
  simp [Char.ofNatAux, Char.toNat, UInt32.toNat]

theorem toLower_toUpper (c : Char) : (c.toUpper).toLower = c.toLower := by
  unfold Char.toUpper Char.toLower
  by_cases h : c.toNat ≥ 97 ∧ c.toNat ≤ 122
  · rw [if_pos h]
    have h1 : (Char.ofNat (c.toNat - 32)).toNat = c.toNat - 32 :=
      toNat_ofNat_small _ (by omega)
    rw [h1, if_pos (by omega), if_neg (by omega)]
    have h2 : c.toNat - 32 + 32 = c.toNat := by omega
    rw [h2, Char.ofNat_toNat]
  · rw [if_neg h]

theorem toUpper_toUpper (c : Char) : (c.toUpper).toUpper = c.toUpper := by
  unfold Char.toUpper
  by_cases h : c.toNat ≥ 97 ∧ c.toNat ≤ 122
  · rw [if_pos h]
    have h1 : (Char.ofNat (c.toNat - 32)).toNat = c.toNat - 32 :=
      toNat_ofNat_small _ (by omega)
    rw [h1, if_neg (by omega)]
  · simp only [if_neg h]

theorem toLowerStr_capitalizeStr (s : String) :
    toLowerStr (capitalizeStr s) = toLowerStr s := by
  cases s with
  | mk data =>
    cases data with
    | nil => rfl
    | cons c rest =>
      show toLowerStr ⟨Char.toUpper c :: rest⟩ = _
      unfold toLowerStr
      simp only [List.map]
      rw [toLower_toUpper]

theorem capitalizeStr_idem (s : String) :
    capitalizeStr (capitalizeStr s) = capitalizeStr s := by
  cases s with
  | mk data =>
    cases data with
    | nil => rfl
    | cons c rest =>
      show capitalizeStr ⟨Char.toUpper c :: rest⟩ = _
      unfold capitalizeStr
      simp only
      rw [toUpper_toUpper]

theorem capitalizeStr_ne_empty (s : String) (h : s ≠ "") :
    capitalizeStr s ≠ "" := by
  cases s with
  | mk data =>
    cases data with
    | nil => exact absurd rfl h
    | cons c rest =>
      show (⟨Char.toUpper c :: rest⟩ : String) ≠ ""
      intro hc
      have := congrArg String.data hc
      simp at this

theorem lookup_val_mem {α β : Type} [BEq α] :
    ∀ (l : List (α × β)) (a : α) (b : β),
      l.lookup a = some b → b ∈ l.map Prod.snd := by
  intro l
  induction l with
  | nil => intro a b h; simp [List.lookup] at h
  | cons p rest ih =>
    intro a b h
    rw [List.lookup] at h
    cases hak : a == p.1 with
    | true =>
      rw [hak] at h
      simp only [Option.some.injEq] at h
      subst h
      simp
    | false =>
      rw [hak] at h
      simp only [List.map, List.mem_cons]
      exact Or.inr (ih a b h)

theorem categoryMap_values_fixed :
    ∀ v ∈ categoryMap.map Prod.snd, normalizeCategory v = v := by decide

example : extractHostname "https://feeds.bbci.co.uk/news/world/rss.xml" =
    "feeds.bbci.co.uk" := by decide

example : extractHostname "not a url" = "unknown" := by decide

/-! ### Claim theorems about the Category Normalizer -/

/-- C5: `normalizeCategory` is a pure function; every input whose
lowercasing is a key of the synonym table maps to the table's canonical
value (hence the result is independent of the input's casing), the
documented examples hold ("TECHNOLOGY"/"Gadgets"/"tech" map to "Tech",
"economy"/"finance" map to "Business"), and the empty/absent input maps
to the default category "General". -/
theorem normalizeCategory_synonym_casing :
    (∀ c v, categoryMap.lookup (toLowerStr c) = some v → normalizeCategory c = v) ∧
    normalizeCategory "TECHNOLOGY" = "Tech" ∧
    normalizeCategory "Gadgets" = "Tech" ∧
    normalizeCategory "tech" = "Tech" ∧
    normalizeCategory "economy" = "Business" ∧
    normalizeCategory "finance" = "Business" ∧
    normalizeCategory "" = "General" := by
  refine ⟨?_, by decide, by decide, by decide, by decide, by decide, by decide⟩
  intro c v h
  by_cases hc : c = ""
  · subst hc
    rw [show categoryMap.lookup (toLowerStr "") = none from by decide] at h
    exact Option.noConfusion h
  · unfold normalizeCategory
    rw [if_neg hc, h]

/-- Witness for C5: the synonym-table clause applied at the concrete
input "SPORT". -/
theorem normalizeCategory_synonym_casing_witness :
    normalizeCategory "SPORT" = "Sports" :=
  normalizeCategory_synonym_casing.1 "SPORT" "Sports" (by decide)

/-- C10: `normalizeCategory` is idempotent: canonical values of the
synonym table map to themselves, the default category maps to itself,
and a title-cased pass-through value is unchanged by a second
normalization. -/
theorem normalizeCategory_idem (c : String) :
    normalizeCategory (normalizeCategory c) = normalizeCategory c := by
  by_cases hc : c = ""
  · subst hc; decide
  · cases h : categoryMap.lookup (toLowerStr c) with
    | some v =>
      have h1 : normalizeCategory c = v := by
        unfold normalizeCategory; rw [if_neg hc, h]
      rw [h1]
      exact categoryMap_values_fixed v (lookup_val_mem categoryMap _ v h)
    | none =>
      have h1 : normalizeCategory c = capitalizeStr c := by
        unfold normalizeCategory; rw [if_neg hc, h]
      rw [h1]
      have hne : capitalizeStr c ≠ "" := capitalizeStr_ne_empty c hc
      unfold normalizeCategory
      rw [if_neg hne, toLowerStr_capitalizeStr, h, capitalizeStr_idem]

/-! ### Claim theorem about the image extractor -/

/-- C8: `extractImageUrl` resolves the image URL trying, in order with
first match winning: (1) the structured `media:content` field, (2) the
`enclosure` field, (3) the regex scan for an `<img>` tag in the entry's
HTML content, (4) on a network fetch of the article page the Open
Graph image, (5) then the Twitter-card image, (6) then the first
`<img>` with no declared dimensions or dimensions exceeding 100×100,
and (7) the fixed placeholder if all fail — including a fetch error
(`page = none`, for which `fetchArticleImage page = ""`) and the
no-link case. -/
theorem extractImageUrl_priority_order (item : FeedEntry) (page : Option ArticlePage) :
    (item.mediaUrl ≠ "" → extractImageUrl item page = item.mediaUrl) ∧
    (item.mediaUrl = "" → item.enclosureUrl ≠ "" →
      extractImageUrl item page = item.enclosureUrl) ∧
    (∀ u, item.mediaUrl = "" → item.enclosureUrl = "" →
      findImgSrc (imageScanContent item) = some u → extractImageUrl item page = u) ∧
    (item.mediaUrl = "" → item.enclosureUrl = "" →
      findImgSrc (imageScanContent item) = none → item.link ≠ "" →
      ∀ p, page = some p → p.ogImage ≠ "" → extractImageUrl item page = p.ogImage) ∧
    (item.mediaUrl = "" → item.enclosureUrl = "" →
      findImgSrc (imageScanContent item) = none → item.link ≠ "" →
      ∀ p, page = some p → p.ogImage = "" → p.twitterImage ≠ "" →
      extractImageUrl item page = p.twitterImage) ∧
    (item.mediaUrl = "" → item.enclosureUrl = "" →
      findImgSrc (imageScanContent item) = none → item.link ≠ "" →
      ∀ p, page = some p → p.ogImage = "" → p.twitterImage = "" →
      firstLargeImg p.imgs ≠ "" → extractImageUrl item page = firstLargeImg p.imgs) ∧
    (item.mediaUrl = "" → item.enclosureUrl = "" →
      findImgSrc (imageScanContent item) = none → item.link = "" →
      extractImageUrl item page = placeholderImage) ∧
    (item.mediaUrl = "" → item.enclosureUrl = "" →
      findImgSrc (imageScanContent item) = none →
      fetchArticleImage page = "" → extractImageUrl item page = placeholderImage) ∧
    (∀ img rest, (if img.dataSrc ≠ "" then img.dataSrc else img.src) ≠ "" →
      ((img.width = 0 ∧ img.height = 0) ∨ (img.width > 100 ∧ img.height > 100)) →
      firstLargeImg (img :: rest) = (if img.dataSrc ≠ "" then img.dataSrc else img.src)) ∧
    (∀ img rest,
      ¬ ((if img.dataSrc ≠ "" then img.dataSrc else img.src) ≠ "" ∧
         ((img.width = 0 ∧ img.height = 0) ∨ (img.width > 100 ∧ img.height > 100))) →
      firstLargeImg (img :: rest) = firstLargeImg rest) := by
  refine ⟨?_, ?_, ?_, ?_, ?_, ?_, ?_, ?_, ?_, ?_⟩
  · intro h1
    simp [extractImageUrl, h1]
  · intro h1 h2
    simp [extractImageUrl, h1, h2]
  · intro u h1 h2 h3
    simp [extractImageUrl, h1, h2, h3]
  · intro h1 h2 h3 h4 p hp hog
    subst hp
    simp [extractImageUrl, fetchArticleImage, h1, h2, h3, h4, hog]
  · intro h1 h2 h3 h4 p hp hog htw
    subst hp
    simp [extractImageUrl, fetchArticleImage, h1, h2, h3, h4, hog, htw]
  · intro h1 h2 h3 h4 p hp hog htw hfi
    subst hp
    simp [extractImageUrl, fetchArticleImage, h1, h2, h3, h4, hog, htw, hfi]
  · intro h1 h2 h3 h4
    simp [extractImageUrl, h1, h2, h3, h4]
  · intro h1 h2 h3 h4
    simp [extractImageUrl, h1, h2, h3, h4]
  · intro img rest hsrc hdim
    simp only [firstLargeImg]
    rw [if_pos]
    simp only [Bool.and_eq_true, Bool.or_eq_true, decide_eq_true_eq, beq_iff_eq]
    constructor
    · simpa using hsrc
    · rcases hdim with ⟨hw, hh⟩ | ⟨hw, hh⟩
      · exact Or.inl (by simp [hw, hh])
      · exact Or.inr (by simp [hw, hh])
  · intro img rest hneg
    simp only [firstLargeImg]
    rw [if_neg]
    intro hcontra
    apply hneg
    simp only [Bool.and_eq_true, Bool.or_eq_true, decide_eq_true_eq, beq_iff_eq]
      at hcontra
    refine ⟨by simpa using hcontra.1, ?_⟩
    rcases hcontra.2 with ⟨hw, hh⟩ | ⟨hw, hh⟩
    · exact Or.inl ⟨hw, hh⟩
    · exact Or.inr ⟨hw, hh⟩

/-- Witness for C8: the media-enclosure clause at a concrete entry. -/
theorem extractImageUrl_priority_order_witness :
    extractImageUrl
      { title := "t", link := "", pubDate := none, creator := "", author := "",
        contentSnippet := "", description := "", content := "",
        contentEncoded := "", mediaUrl := "http://m/x.png", enclosureUrl := "" }
      none = "http://m/x.png" :=
  (extractImageUrl_priority_order _ none).1 (by decide)

/-! ### Deduplication lemmas for the Feed Fetcher/Processor -/

theorem findExisting_append_of_some (store ext : NewsStore) (t s : String)
    (n : News) (h : findExisting store t s = some n) :
    findExisting (store ++ ext) t s = some n := by
  unfold findExisting at h ⊢
  induction store with
  | nil => simp [List.find?] at h
  | cons m rest ih =>
    rw [List.cons_append]
    simp only [List.find?] at h ⊢
    cases hpm : (m.title == t && m.source == s) with
    | true =>
      rw [hpm] at h
      exact h
    | false =>
      rw [hpm] at h
      exact ih h

theorem findExisting_self_append (store : NewsStore) (n : News) :
    ∃ m, findExisting (store ++ [n]) n.title n.source = some m := by
  induction store with
  | nil =>
    refine ⟨n, ?_⟩
    unfold findExisting
    rw [List.nil_append]
    simp [List.find?]
  | cons a rest ih =>
    unfold findExisting at ih ⊢
    rw [List.cons_append]
    simp only [List.find?]
    cases hpa : (a.title == n.title && a.source == n.source) with
    | true => exact ⟨a, rfl⟩
    | false =>
      obtain ⟨m, hm⟩ := ih
      exact ⟨m, hm⟩

theorem processItems_store_ext (fs : FeedSource) (nc : String) (now : Int)
    (w : FetchWorld) :
    ∀ (items : List FeedEntry) (store : NewsStore) (acc : List News),
      ∃ ext, (processItems fs nc now w items store acc).1 = store ++ ext := by
  intro items
  induction items with
  | nil => intro store acc; exact ⟨[], by simp [processItems]⟩
  | cons item rest ih =>
    intro store acc
    cases hf : findExisting store (buildNewsItem fs nc now w item).title
        (buildNewsItem fs nc now w item).source with
    | some n =>
      simp only [processItems, hf]
      exact ih store acc
    | none =>
      simp only [processItems, hf]
      by_cases hv : newsValid (buildNewsItem fs nc now w item)
      · rw [if_pos hv]
        obtain ⟨ext, hext⟩ := ih (store ++ [buildNewsItem fs nc now w item])
          (buildNewsItem fs nc now w item :: acc)
        exact ⟨buildNewsItem fs nc now w item :: ext, by
          rw [hext, List.append_assoc]; rfl⟩
      · rw [if_neg hv]
        exact ⟨[], by simp⟩

/-- Running the per-item loop a second time over the store produced by
a first run changes nothing: every entry is either found (and skipped)
or fails validation exactly as before. -/
theorem processItems_idem (fs : FeedSource) (nc : String) (now : Int)
    (w : FetchWorld) :
    ∀ (items : List FeedEntry) (store : NewsStore) (acc acc' : List News),
      processItems fs nc now w items
        (processItems fs nc now w items store acc).1 acc' =
      ((processItems fs nc now w items store acc).1,
       if (processItems fs nc now w items store acc).2.2 then []
       else acc'.reverse,
       (processItems fs nc now w items store acc).2.2) := by
  intro items
  induction items with
  | nil =>
    intro store acc acc'
    simp [processItems]
  | cons item rest ih =>
    intro store acc acc'
    cases hf : findExisting store (buildNewsItem fs nc now w item).title
        (buildNewsItem fs nc now w item).source with
    | some n =>
      obtain ⟨ext, hext⟩ := processItems_store_ext fs nc now w rest store acc
      have hf2 : findExisting (processItems fs nc now w rest store acc).1
          (buildNewsItem fs nc now w item).title
          (buildNewsItem fs nc now w item).source = some n := by
        rw [hext]
        exact findExisting_append_of_some store ext _ _ n hf
      simp only [processItems, hf, hf2]
      exact ih store acc acc'
    | none =>
      by_cases hv : newsValid (buildNewsItem fs nc now w item)
      · obtain ⟨ext, hext⟩ := processItems_store_ext fs nc now w rest
          (store ++ [buildNewsItem fs nc now w item])
          (buildNewsItem fs nc now w item :: acc)
        obtain ⟨m, hm⟩ := findExisting_self_append store
          (buildNewsItem fs nc now w item)
        have hf2 : findExisting (processItems fs nc now w rest
            (store ++ [buildNewsItem fs nc now w item])
            (buildNewsItem fs nc now w item :: acc)).1
            (buildNewsItem fs nc now w item).title
            (buildNewsItem fs nc now w item).source = some m := by
          rw [hext]
          exact findExisting_append_of_some _ ext _ _ m hm
        simp only [processItems, hf, hf2, if_pos hv]
        exact ih (store ++ [buildNewsItem fs nc now w item])
          (buildNewsItem fs nc now w item :: acc) acc'
      · simp only [processItems, hf, if_neg hv]
        simp

/-- Only validated documents are ever added to the store by the
per-item loop. -/
theorem processItems_inserted_valid (fs : FeedSource) (nc : String) (now : Int)
    (w : FetchWorld) :
    ∀ (items : List FeedEntry) (store : NewsStore) (acc : List News) (n : News),
      n ∈ (processItems fs nc now w items store acc).1 →
      n ∈ store ∨ newsValid n = true := by
  intro items
  induction items with
  | nil =>
    intro store acc n hn
    simp only [processItems] at hn
    exact Or.inl hn
  | cons item rest ih =>
    intro store acc n hn
    cases hf : findExisting store (buildNewsItem fs nc now w item).title
        (buildNewsItem fs nc now w item).source with
    | some m =>
      simp only [processItems, hf] at hn
      exact ih store acc n hn
    | none =>
      simp only [processItems, hf] at hn
      by_cases hv : newsValid (buildNewsItem fs nc now w item)
      · rw [if_pos hv] at hn
        rcases ih _ _ n hn with hmem | hval
        · rcases List.mem_append.mp hmem with hs | hitem
          · exact Or.inl hs
          · right
            rw [List.mem_singleton.mp hitem]
            exact hv
        · exact Or.inr hval
      · rw [if_neg hv] at hn
        exact Or.inl hn

/-! ### Claim theorems about the Feed Fetcher/Processor -/

/-- C1: reprocessing the same feed against the store left by a first
processing run inserts zero additional records and leaves the stored
set of NewsItems unchanged — every candidate is found by the
`(title, source)` lookup (or fails validation identically) and is
skipped. -/
theorem processFeed_reprocess_idempotent (fs : FeedSource) (now : Int)
    (w : FetchWorld) (feedResult : Option (List FeedEntry)) (store : NewsStore) :
    processFeed fs now w feedResult (processFeed fs now w feedResult store).1 =
      ((processFeed fs now w feedResult store).1, []) := by
  cases feedResult with
  | none => rfl
  | some items =>
    simp only [processFeed]
    rw [processItems_idem]
    cases (processItems fs (normalizeCategory fs.category) now w items store []).2.2
      with
    | true => simp
    | false => simp

/-! ### Cache lemmas and the Read Path claims -/

theorem find_set_inplace (k : CacheKey) (v : CachedResponse) :
    ∀ m : List (CacheKey × CachedResponse), m.any (fun p => p.1 == k) = true →
      (m.map (fun p => if p.1 == k then (k, v) else p)).find?
        (fun p => p.1 == k) = some (k, v) := by
  intro m
  induction m with
  | nil => intro h; simp at h
  | cons p rest ih =>
    intro h
    simp only [List.map]
    by_cases hp : (p.1 == k) = true
    · rw [if_pos hp]
      simp only [List.find?]
      rw [show ((k, v).1 == k) = true from by simp]
    · rw [if_neg hp]
      simp only [List.find?]
      have hpf : (p.1 == k) = false := by simpa using hp
      rw [hpf]
      apply ih
      simp only [List.any_cons, hpf, Bool.false_or] at h
      exact h

theorem find_set_append (k : CacheKey) (v : CachedResponse) :
    ∀ m : List (CacheKey × CachedResponse), m.any (fun p => p.1 == k) = false →
      ((m ++ [(k, v)]).find? (fun p => p.1 == k)) = some (k, v) := by
  intro m
  induction m with
  | nil =>
    intro _
    simp only [List.nil_append, List.find?]
    rw [show ((k, v).1 == k) = true from by simp]
  | cons p rest ih =>
    intro h
    rw [List.cons_append]
    simp only [List.find?]
    simp only [List.any_cons, Bool.or_eq_false_iff] at h
    rw [h.1]
    exact ih h.2

/-- Setting then getting the same key of the cache map returns the stored
value. -/
theorem cacheGet_cacheSet (m : List (CacheKey × CachedResponse)) (k : CacheKey)
    (v : CachedResponse) : cacheGet (cacheSet m k v) k = some v := by
  unfold cacheSet cacheGet
  by_cases h : m.any (fun p => p.1 == k)
  · rw [if_pos h, find_set_inplace k v m h]
    rfl
  · rw [if_neg h]
    have hfalse : m.any (fun p => p.1 == k) = false := by
      cases ha : m.any (fun p => p.1 == k) with
      | false => rfl
      | true => exact absurd ha h
    rw [find_set_append k v m hfalse]
    rfl

/-- C3: if the store read fails and a non-expired fallback entry exists
for the computed cache key — in particular the one written by an
earlier successful read — the controller returns that cached payload as
a 200 response carrying the staleness warning; if the store read fails
and no non-expired entry exists, it reports the 503
service-unavailable condition. -/
theorem getNews_controller_fallback (category : Option String) (page limit : Nat)
    (qp : QueryPage) (cache : List (CacheKey × CachedResponse)) (t0 : Int) :
    (∀ (t1 : Int) (e : Unit), t1 < t0 + FALLBACK_CACHE_TTL →
      getNewsController category page limit (.error e)
        (getNewsController category page limit (.ok qp) cache t0).2 t1 =
      (.ok page (totalPagesOf qp.totalResults limit) qp.totalResults qp.results
        true,
       (getNewsController category page limit (.ok qp) cache t0).2)) ∧
    (∀ (cache' : List (CacheKey × CachedResponse)) (now : Int) (e : Unit),
      (∀ cr, cacheGet cache' (CacheKey.news category page limit) = some cr →
        cr.expiry ≤ now) →
      getNewsController category page limit (.error e) cache' now =
        (.unavailable, cache')) := by
  constructor
  · intro t1 e ht
    simp only [getNewsController, cacheGet_cacheSet]
    have hcond : ({ data := qp, expiry := t0 + FALLBACK_CACHE_TTL } :
        CachedResponse).expiry > t1 := ht
    rw [if_pos hcond]
  · intro cache' now e hstale
    cases hc : cacheGet cache' (CacheKey.news category page limit) with
    | none => simp only [getNewsController, hc]
    | some cr =>
      simp only [getNewsController, hc]
      rw [if_neg (by
        have := hstale cr hc
        omega)]

/-- Witness for C3: a failing store read against an empty fallback
cache yields the 503 response. -/
theorem getNews_controller_fallback_witness :
    getNewsController none 1 10 (.error ()) [] 0 = (.unavailable, []) :=
  (getNews_controller_fallback none 1 10 ⟨[], 0⟩ [] 0).2 [] 0 ()
    (fun _ hcr => Option.noConfusion hcr)

/-- C4: if the fast cache holds a non-expired entry for the computed
key, the Read Path answers from it and the store is never queried
during the request (`storeCalls = 0`); both caches are left
untouched. -/
theorem readPath_fastCache_hit_no_store_query (category : Option String)
    (page limit : Nat) (dbResult : Except Unit QueryPage)
    (fastCache fallbackCache : List (CacheKey × CachedResponse)) (now : Int)
    (cr : CachedResponse)
    (hhit : cacheGet fastCache (CacheKey.news category page limit) = some cr)
    (hfresh : cr.expiry > now) :
    (readPathWithFastCache category page limit dbResult fastCache fallbackCache
      now).1.storeCalls = 0 ∧
    (readPathWithFastCache category page limit dbResult fastCache fallbackCache
      now).1.response =
      .ok page (totalPagesOf cr.data.totalResults limit) cr.data.totalResults
        cr.data.results false ∧
    (readPathWithFastCache category page limit dbResult fastCache fallbackCache
      now).2 = (fastCache, fallbackCache) := by
  simp only [readPathWithFastCache, hhit]
  rw [if_pos hfresh]
  exact ⟨rfl, rfl, rfl⟩

/-- Witness for C4: a concrete fresh fast-cache entry is served with
zero store calls even though the store read would fail. -/
theorem readPath_fastCache_hit_no_store_query_witness :
    (readPathWithFastCache none 1 10 (.error ())
      [(CacheKey.news none 1 10,
        { data := ⟨[], 0⟩, expiry := 5 })] [] 0).1.storeCalls = 0 ∧
    (readPathWithFastCache none 1 10 (.error ())
      [(CacheKey.news none 1 10,
        { data := ⟨[], 0⟩, expiry := 5 })] [] 0).1.response =
      .ok 1 0 0 [] false ∧
    (readPathWithFastCache none 1 10 (.error ())
      [(CacheKey.news none 1 10, { data := ⟨[], 0⟩, expiry := 5 })] [] 0).2 =
      ([(CacheKey.news none 1 10, { data := ⟨[], 0⟩, expiry := 5 })], []) :=
  readPath_fastCache_hit_no_store_query none 1 10 (.error ())
    [(CacheKey.news none 1 10, { data := ⟨[], 0⟩, expiry := 5 })] [] 0
    { data := ⟨[], 0⟩, expiry := 5 } (by decide) (by decide)

/-! ### Claim theorem about the Read query -/

/-- C2: `getNews` with a set of requested (canonical) categories
returns at most `limit` items, every returned item carries at least one
requested category, the page is ordered by `publishedAt` descending,
and `totalResults` counts all stored items whose categories intersect
the requested set — not just those on the returned page. -/
theorem getNews_category_page (store : NewsStore) (l : List String)
    (page limit : Nat) (hcanon : ∀ c ∈ l, normalizeCategory c = c) :
    (getNews store (.many l) page limit).results.length ≤ limit ∧
    (∀ n ∈ (getNews store (.many l) page limit).results,
      ∃ c ∈ n.categories, c ∈ l) ∧
    List.Pairwise (fun a b : News => b.publishedAt ≤ a.publishedAt)
      (getNews store (.many l) page limit).results ∧
    (getNews store (.many l) page limit).totalResults =
      store.countP (fun n => l.any (fun c => n.categories.contains c)) := by
  have hmap : ∀ (m : List String), (∀ c ∈ m, normalizeCategory c = c) →
      m.map normalizeCategory = m := by
    intro m
    induction m with
    | nil => intro _; rfl
    | cons a t iht =>
      intro hm
      simp only [List.map]
      rw [hm a (by simp), iht (fun c hc => hm c (by simp [hc]))]
  refine ⟨?_, ?_, ?_, ?_⟩
  · simp only [getNews]
    exact List.length_take_le _ _
  · intro n hn
    simp only [getNews] at hn
    have h1 : n ∈ (store.filter (newsQuery (.many l))).mergeSort byPublishedDesc :=
      List.mem_of_mem_drop (List.mem_of_mem_take hn)
    have h2 : n ∈ store.filter (newsQuery (.many l)) :=
      ((store.filter (newsQuery (.many l))).mergeSort_perm
        byPublishedDesc).mem_iff.mp h1
    have h3 := (List.mem_filter.mp h2).2
    simp only [newsQuery] at h3
    rw [hmap l hcanon] at h3
    obtain ⟨c, hcl, hcc⟩ := List.any_eq_true.mp h3
    exact ⟨c, by simpa using hcc, hcl⟩
  · have htrans : ∀ a b c : News, byPublishedDesc a b = true →
        byPublishedDesc b c = true → byPublishedDesc a c = true := by
      intro a b c hab hbc
      simp only [byPublishedDesc, decide_eq_true_eq] at hab hbc ⊢
      omega
    have htotal : ∀ a b : News, (byPublishedDesc a b || byPublishedDesc b a)
        = true := by
      intro a b
      simp only [byPublishedDesc, Bool.or_eq_true, decide_eq_true_eq]
      omega
    have hsorted := List.sorted_mergeSort htrans htotal
      (store.filter (newsQuery (.many l)))
    have hsub : ((((store.filter (newsQuery (.many l))).mergeSort
        byPublishedDesc).drop ((page - 1) * limit)).take limit).Sublist
        ((store.filter (newsQuery (.many l))).mergeSort byPublishedDesc) :=
      (List.take_sublist _ _).trans (List.drop_sublist _ _)
    have hp := List.Pairwise.sublist hsub hsorted
    simp only [getNews]
    exact hp.imp (fun h => by simpa [byPublishedDesc] using h)
  · simp only [getNews]
    rw [List.countP_eq_length_filter]
    have hq : newsQuery (.many l) =
        fun n => l.any (fun c => n.categories.contains c) := by
      funext n
      simp only [newsQuery]
      rw [hmap l hcanon]
    rw [hq]

/-- Witness for C2 at a concrete store and the request
`getNews(["World","Tech"], page = 1, limit = 10)`. -/
theorem getNews_category_page_witness :
    (getNews sampleStore (.many ["World", "Tech"]) 1 10).results.length ≤ 10 ∧
    (∀ n ∈ (getNews sampleStore (.many ["World", "Tech"]) 1 10).results,
      ∃ c ∈ n.categories, c ∈ ["World", "Tech"]) ∧
    List.Pairwise (fun a b : News => b.publishedAt ≤ a.publishedAt)
      (getNews sampleStore (.many ["World", "Tech"]) 1 10).results ∧
    (getNews sampleStore (.many ["World", "Tech"]) 1 10).totalResults =
      sampleStore.countP
        (fun n => ["World", "Tech"].any (fun c => n.categories.contains c)) :=
  getNews_category_page sampleStore ["World", "Tech"] 1 10 (by decide)

/-- Counterexample to C6: the normalizer passes the ad-hoc category
"Cricket" through, but the schema `enum` does not admit it, so the
candidate built from a feed entry with category "cricket" fails
validation and is NOT stored: `processFeed` returns an unchanged store
and no processed items. -/
theorem adhocCategory_not_stored_cex :
    normalizeCategory "cricket" = "Cricket" ∧
    categoriesEnum.contains "Cricket" = false ∧
    newsValid (buildNewsItem cricketSource "Cricket" 0 emptyWorld cricketEntry)
      = false ∧
    processFeed cricketSource 0 emptyWorld (some [cricketEntry]) [] = ([], []) := by
  refine ⟨by decide, by decide, by decide, ?_⟩
  decide

/-- C6 amended: the normalizer title-cases unmatched non-empty input
and passes it through as an ad-hoc category value, but the `news`
schema restricts `categories` to its fixed enumeration: a candidate
whose category is outside the enumeration fails validation and is never
stored, so an ad-hoc category blocks ingestion of its entry at the
persistence layer rather than being accepted. -/
theorem adhocCategory_passthrough_rejected :
    (∀ c, c ≠ "" → categoryMap.lookup (toLowerStr c) = none →
      normalizeCategory c = capitalizeStr c) ∧
    (∀ n : News, (∃ c ∈ n.categories, categoriesEnum.contains c = false) →
      newsValid n = false) ∧
    (∀ (fs : FeedSource) (now : Int) (w : FetchWorld) (items : List FeedEntry)
      (store : NewsStore) (n : News),
      n ∈ (processFeed fs now w (some items) store).1 →
      n ∈ store ∨ newsValid n = true) := by
  refine ⟨?_, ?_, ?_⟩
  · intro c hc hl
    unfold normalizeCategory
    rw [if_neg hc, hl]
  · intro n hex
    obtain ⟨c, hc, hnc⟩ := hex
    unfold newsValid
    have hall : n.categories.all (fun c => categoriesEnum.contains c) = false := by
      rw [List.all_eq_false]
      exact ⟨c, hc, by simpa using hnc⟩
    rw [hall]
    simp
  · intro fs now w items store n hn
    simp only [processFeed] at hn
    exact processItems_inserted_valid fs (normalizeCategory fs.category) now w
      items store [] n hn

/-- Witness for the amended C6: the pass-through clause at "cricket"
and the rejection clause at a concrete document. -/
theorem adhocCategory_passthrough_rejected_witness :
    normalizeCategory "cricket" = capitalizeStr "cricket" ∧
    newsValid
      { title := "Match report", imageUrl := "", summary := none,
        publishedAt := 5, source := "X", author := "Unknown",
        categories := ["Cricket"], url := "http://x.example/a" } = false :=
  ⟨(adhocCategory_passthrough_rejected.1 "cricket" (by decide) (by decide)),
   (adhocCategory_passthrough_rejected.2.1 _ ⟨"Cricket", by decide, by decide⟩)⟩

theorem processAllGo_errors (now : Int) (w : FetchWorld)
    (feeds : FeedSource → Option (List FeedEntry)) :
    ∀ (sources : List FeedSource) (store : NewsStore) (results : FeedResults),
      (processAllGo now w feeds sources store results).2.errors = results.errors := by
  intro sources
  induction sources with
  | nil => intro store results; rfl
  | cons fs rest ih =>
    intro store results
    simp only [processAllGo]
    rw [ih]
    by_cases h : (processFeed fs now w (feeds fs) store).2.length > 0
    · rw [if_pos h]
    · rw [if_neg h]

theorem processAllGo_total (now : Int) (w : FetchWorld)
    (feeds : FeedSource → Option (List FeedEntry)) :
    ∀ (sources : List FeedSource) (store : NewsStore) (results : FeedResults),
      (processAllGo now w feeds sources store results).2.totalProcessed =
        results.totalProcessed + sources.length := by
  intro sources
  induction sources with
  | nil => intro store results; simp [processAllGo]
  | cons fs rest ih =>
    intro store results
    simp only [processAllGo]
    by_cases h : (processFeed fs now w (feeds fs) store).2.length > 0
    · rw [if_pos h, ih]
      simp only [List.length_cons]
      omega
    · rw [if_neg h, ih]
      simp only [List.length_cons]
      omega

/-- Counterexample to C7: a whole-feed parse failure (the rss-parser
outcome is an error) is absorbed by `processFeed`'s own catch into
`[]`, so `processAllFeeds`' per-source catch never fires: the failing
source is counted in `totalProcessed` like a success and the `errors`
counter stays 0 — the transient failure does NOT contribute to the
error counter. -/
theorem processAllFeeds_error_counter_cex :
    (fun _ : FeedSource => (none : Option (List FeedEntry))) badSource = none ∧
    (processAllFeeds [badSource] 0 emptyWorld (fun _ => none) []).2.errors = 0 ∧
    (processAllFeeds [badSource] 0 emptyWorld (fun _ => none) []).2.totalProcessed
      = 1 := by
  refine ⟨rfl, ?_, ?_⟩ <;> decide

/-- C7 amended: a parse failure for a whole source is caught and yields
an empty list of inserted items for that source, every remaining source
is still processed (`totalProcessed` counts all of them), but such
failures do not contribute to the error counter: `errors` is
unreachable and remains 0 for every pass. -/
theorem processAllFeeds_isolates_failures (sources : List FeedSource) (now : Int)
    (w : FetchWorld) (feeds : FeedSource → Option (List FeedEntry))
    (store : NewsStore) :
    (processAllFeeds sources now w feeds store).2.errors = 0 ∧
    (processAllFeeds sources now w feeds store).2.totalProcessed =
      sources.length ∧
    (∀ (fs : FeedSource) (store' : NewsStore), feeds fs = none →
      processFeed fs now w (feeds fs) store' = (store', [])) := by
  refine ⟨?_, ?_, ?_⟩
  · exact processAllGo_errors now w feeds sources store _
  · show (processAllGo now w feeds sources store
      { totalProcessed := 0, newItems := 0, errors := 0,
        categoryCounts := [] }).2.totalProcessed = sources.length
    rw [processAllGo_total]
    simp
  · intro fs store' h
    rw [h]
    rfl

/-- Witness for the amended C7 at a concrete failing pass. -/
theorem processAllFeeds_isolates_failures_witness :
    (processAllFeeds [badSource] 0 emptyWorld (fun _ => none) []).2.errors = 0 ∧
    processFeed badSource 0 emptyWorld none [] = ([], []) := by
  refine ⟨(processAllFeeds_isolates_failures [badSource] 0 emptyWorld
    (fun _ => none) []).1, ?_⟩
  exact (processAllFeeds_isolates_failures [badSource] 0 emptyWorld
    (fun _ => none) []).2.2 badSource [] rfl

end NewsApi
